import Mathlib

/-!
Shallow embedding of the vimeoserver byte-range caching proxy.

Cache engine: `cache/memory_cache.go` (`MemCache`, `metaList`, `lruHeap`,
`Put`, `Get`, `search`, `evict`).  Protocol layer: `server/proxy_request.go`
(`proxyRequest`, `sourceValidation`, `rangeValidation`).

Modelling conventions:
* Go `int` is modelled as `Int` (no claim exercises 64-bit overflow of sizes
  or offsets); byte buffers are `List Nat`.
* `time.Now().Unix()` is an explicit logical-time argument `now : Int`
  threaded through `Put` and `Get` (the spec calls it a "monotonically
  assigned logical timestamp").
* Pointers: each `metaObject` allocation gets a fresh identity `mid`.  An
  `lruObject`'s `ptr` field is modelled as that identity plus a snapshot of
  the pointed-to fields that are immutable after allocation (`start`, `end`,
  `sourceURL`); the only mutation through the pointer pair is
  `targetMeta.lru.epoch = ...` in `Get`, modelled by updating the heap node
  whose `ptrId` matches (identities are unique, so this is the same node).
* Run-time panics (nil dereference, out-of-range index/slice, negative
  `make` length) are represented by explicit `panic`/`none` outcomes.
* Loops are written with a fuel argument that provably dominates the
  iteration count (each iteration strictly shrinks the measure named in the
  comment), so the fueled function computes exactly the Go loop.
-/

namespace Vimeoserver

set_option maxRecDepth 16384

/-- Model of `metaObject`: one cached byte span.  `mid` is the allocation
identity (models the pointer); the remaining fields transcribe the Go struct.
`end` is a Lean keyword, so the field is `end_`. -/
structure MetaObject where
  mid : Nat
  start : Int
  end_ : Int
  size : Int
  buffer : List Nat
  sourceURL : String
deriving DecidableEq, Repr

/-- Model of `lruObject`: `epoch` plus the pointer to its `metaObject`,
represented as the target's identity `ptrId` together with a snapshot of the
target's immutable fields read through the pointer in `evict`
(`lru.ptr.start`, `lru.ptr.end`, `lru.ptr.sourceURL`). -/
structure LruObject where
  epoch : Int
  ptrId : Nat
  ptrStart : Int
  ptrEnd : Int
  ptrSourceURL : String
deriving DecidableEq, Repr

/-- Model of `MemCache`.  `sourceMap` is the Go map as an association list
with unique keys (bindings are only ever added, never removed); `lru` is the
`lruHeap` slice with index 0 the root; `nextId` is the allocator for
`MetaObject` identities (a model artefact standing for pointer freshness). -/
structure MemCache where
  maxSize : Int
  currentSize : Int
  lru : List LruObject
  sourceMap : List (String × List MetaObject)
  nextId : Nat
deriving DecidableEq, Repr

/-- Default element used for the (provably in-bounds) list indexing done by
the heap and search code. -/
def dummyMeta : MetaObject := ⟨0, 0, 0, 0, [], String.mk []⟩

/-- Default `LruObject` for in-bounds indexing. -/
def dummyLru : LruObject := ⟨0, 0, 0, 0, String.mk []⟩

/-- Model of `NewMemCache`: `size := sizeMb * 1000000`; `heap.Init` on the
empty heap is a no-op. -/
def NewMemCache (sizeMb : Int) : MemCache :=
  { maxSize := sizeMb * 1000000, currentSize := 0, lru := [], sourceMap := [], nextId := 0 }

/-- Model of the Go pair `dst := make([]byte, n); copy(dst, src)` (the only
way buffers are created in `Put` and `Get`): `copy` fills the first
`min n |src|` bytes of the zeroed `dst` from `src` and leaves the rest
zero. -/
def goMakeCopy (n : Nat) (src : List Nat) : List Nat :=
  src.take n ++ List.replicate (n - src.length) 0

/-- Model of the Go slice expression `l[a:b]` on a byte slice: `none` is the
"slice bounds out of range" panic. -/
def goSlice (l : List Nat) (a b : Int) : Option (List Nat) :=
  if 0 ≤ a ∧ a ≤ b ∧ b ≤ (l.length : Int) then
    some ((l.take b.toNat).drop a.toNat)
  else none

/-- Effect of `metaList.append` (append then `sort.Sort(m)`) on a list that
is already sorted by `start`: the new element ends up after every element
whose `start` is `≤` its own, and the relative order of the old elements is
unchanged.  (For the reachable lists here — a sorted list with one appended
element — Go's sort performs exactly this insertion; among equal `start`
keys the spec itself calls the order implementation-defined.) -/
def insertByStart : List MetaObject → MetaObject → List MetaObject
  | [], m => [m]
  | x :: xs, m => if x.start ≤ m.start then x :: insertByStart xs m else m :: x :: xs

/-- Update (or add) the binding of `k` in the source map.  The Go code
mutates the existing `*metaList` in place when the key is present and
inserts a fresh one otherwise; both cases are this operation. -/
def smUpdate : List (String × List MetaObject) → String → List MetaObject → List (String × List MetaObject)
  | [], k, l => [(k, l)]
  | (k0, l0) :: rest, k, l =>
    if k0 == k then (k, l) :: rest else (k0, l0) :: smUpdate rest k l

/-- The `for lower <= upper` loop of `MemCache.search`, carrying the Go
variables `lower`, `upper`, `mid`.  `mid` is assigned `(lower+upper)/2`
(Go division truncates toward zero, `Int.tdiv`) and survives the loop, so it
is threaded through.  Fuel: each iteration shrinks `upper - lower` by at
least one, so fuel `l.length` (the initial `upper - lower + 1`) makes the
fueled function compute exactly the Go loop. -/
def searchLoop (l : List MetaObject) (start : Int) : Nat → Int → Int → Int → Int × Bool
  | 0, _, _, mid => (mid, false)
  | Nat.succ fuel, lower, upper, mid =>
    if lower ≤ upper then
      let mid2 := Int.tdiv (lower + upper) 2
      let m := l.getD mid2.toNat dummyMeta
      if m.start ≤ start ∧ start < m.end_ then (mid2, true)
      else if m.start < start then searchLoop l start fuel (mid2 + 1) upper mid2
      else searchLoop l start fuel lower (mid2 - 1) mid2
    else (mid, false)

/-- Model of `MemCache.search`.  After the loop the source runs
`if found && end <= targetMetaList.list[mid].end { found = true }` — it
assigns `true` to a variable that is already `true` and never clears it, so
`found` is unchanged either way; the branch is transcribed literally. -/
def MemCache.search (c : MemCache) (start end_ : Int) (sourceURL : String) : Int × Bool :=
  match List.lookup sourceURL c.sourceMap with
  | none => (0, false)
  | some l =>
    let r := searchLoop l start l.length 0 ((l.length : Int) - 1) 0
    let found := if r.2 ∧ end_ ≤ (l.getD r.1.toNat dummyMeta).end_ then true else r.2
    (r.1, found)

/-- The eviction loop of `evict`.  One round: `lru.Pop()` — note this calls
the raw `heap.Interface` method (which removes and returns the **last**
slice element), not `container/heap.Pop` — then locates an entry via
`search` (discarding `found`), adds its `size` to the local `freeSpace`,
and deletes it from the per-source list.  `none` is a run-time panic
(popping an empty slice, a nil map entry, or an out-of-range index).
Fuel: each round removes one heap node, so fuel `|lru|` suffices; at fuel 0
the heap is empty and a further required round would panic, which the fuel-0
case returns. -/
def evictLoop : Nat → Int → Int → List LruObject → List (String × List MetaObject) →
    Option (List LruObject × List (String × List MetaObject))
  | 0, freeSpace, toFree, lruh, sm =>
    if freeSpace < toFree then none else some (lruh, sm)
  | Nat.succ fuel, freeSpace, toFree, lruh, sm =>
    if freeSpace < toFree then
      match lruh.getLast? with
      | none => none
      | some node =>
        let lruh2 := lruh.dropLast
        match List.lookup node.ptrSourceURL sm with
        | none => none
        | some l =>
          let r := searchLoop l node.ptrStart l.length 0 ((l.length : Int) - 1) 0
          match l.get? r.1.toNat with
          | none => none
          | some target =>
            let l2 := l.take r.1.toNat ++ l.drop (r.1.toNat + 1)
            evictLoop fuel (freeSpace + target.size) toFree lruh2
              (smUpdate sm node.ptrSourceURL l2)
    else some (lruh, sm)

/-- Model of `MemCache.evict`.  `freeSpace` starts at
`maxSize - currentSize`; the loop frees entries until `freeSpace ≥ toFree`.
The source never writes `c.currentSize` here: eviction leaves the byte
counter untouched. -/
def MemCache.evict (c : MemCache) (toFree : Int) : Option MemCache :=
  (evictLoop c.lru.length (c.maxSize - c.currentSize) toFree c.lru c.sourceMap).map
    (fun p => { c with lru := p.1, sourceMap := p.2 })

/-- Model of `MemCache.Put`.  Returns `none` for a run-time panic inside
`evict`; the Go function's `error` result is always `nil`.  Note
`c.lru.Push(newLru)` is the raw slice append (the `heap.Interface` method),
not `container/heap.Push`. -/
def MemCache.Put (c : MemCache) (now : Int) (start end_ : Int) (buffer : List Nat)
    (sourceURL : String) : Option MemCache :=
  if (buffer.length : Int) > c.maxSize then some c
  else
    let step1 : Option MemCache :=
      if (buffer.length : Int) + c.currentSize > c.maxSize then
        c.evict (buffer.length : Int)
      else some c
    step1.map (fun c1 =>
      let newBuffer := goMakeCopy buffer.length buffer
      let newMeta : MetaObject :=
        ⟨c1.nextId, start, end_, (buffer.length : Int), newBuffer, sourceURL⟩
      let newLru : LruObject := ⟨now, c1.nextId, start, end_, sourceURL⟩
      let l := (List.lookup sourceURL c1.sourceMap).getD []
      { c1 with
        sourceMap := smUpdate c1.sourceMap sourceURL (insertByStart l newMeta)
        lru := c1.lru ++ [newLru]
        currentSize := c1.currentSize + (buffer.length : Int)
        nextId := c1.nextId + 1 })

/-- Comparison `lruHeap.Less i j` (`epoch` order), for provably in-bounds
indices. -/
def lruLess (h : List LruObject) (i j : Int) : Bool :=
  decide ((h.getD i.toNat dummyLru).epoch < (h.getD j.toNat dummyLru).epoch)

/-- `lruHeap.Swap i j`. -/
def lruSwap (h : List LruObject) (i j : Int) : List LruObject :=
  (h.set i.toNat (h.getD j.toNat dummyLru)).set j.toNat (h.getD i.toNat dummyLru)

/-- `container/heap.down` (sift-down), returning the final `i` so the caller
can test `i > i0`.  Fuel: `i` strictly increases each round and is bounded
by `n`, so fuel `|h| + 1` dominates the iteration count. -/
def heapDown : Nat → List LruObject → Int → Int → List LruObject × Int
  | 0, h, i, _ => (h, i)
  | Nat.succ fuel, h, i, n =>
    let j1 := 2 * i + 1
    if j1 ≥ n ∨ j1 < 0 then (h, i)
    else
      let j := if j1 + 1 < n ∧ lruLess h (j1 + 1) j1 then j1 + 1 else j1
      if ¬ lruLess h j i then (h, i)
      else heapDown fuel (lruSwap h i j) j n

/-- `container/heap.up` (sift-up).  `i := (j-1)/2` uses Go's
truncating division (`Int.tdiv`), so at `j = 0` (and `j = -1`) the loop stops
via `i == j`.  Fuel: `j` strictly decreases, bounded below, so `|h| + 1`
dominates. -/
def heapUp : Nat → List LruObject → Int → List LruObject
  | 0, h, _ => h
  | Nat.succ fuel, h, j =>
    let i := Int.tdiv (j - 1) 2
    if i == j ∨ ¬ lruLess h j i then h
    else heapUp fuel (lruSwap h i j) i

/-- `container/heap.Fix h i`: `if !down(h, i, n) { up(h, i) }`. -/
def heapFix (h : List LruObject) (i : Int) : List LruObject :=
  let d := heapDown (h.length + 1) h i (h.length : Int)
  if d.2 > i then d.1 else heapUp (h.length + 1) d.1 i

/-- Outcome of `MemCache.Get`: a hit (returned bytes plus the mutated
cache), a `ErrCacheMiss` (cache unchanged), or a run-time panic. -/
inductive GetOut where
  | hit : List Nat → MemCache → GetOut
  | miss : MemCache → GetOut
  | panic : GetOut
deriving DecidableEq, Repr

/-- Returned bytes of a `GetOut`, if it is a hit. -/
def GetOut.bytes? : GetOut → Option (List Nat)
  | GetOut.hit b _ => some b
  | _ => none

/-- Cache state carried by a non-panicking `GetOut`. -/
def GetOut.state? : GetOut → Option MemCache
  | GetOut.hit _ c => some c
  | GetOut.miss c => some c
  | GetOut.panic => none

/-- Whether a `GetOut` is the run-time panic outcome. -/
def GetOut.isPanic : GetOut → Bool
  | GetOut.panic => true
  | _ => false

/-- Model of `MemCache.Get`.  Transcription order follows the source:
source-map lookup, `search`, miss check, `make([]byte, end-start)` (panics
for a negative length), `list[metaIndex]` (panics out of range), the slice
`buffer[targetStartIndex:targetEndIndex]` (panics out of bounds), `copy`,
the `lru.epoch` update through the entry's pointer, and
`heap.Fix(c.lru, c.lru.Len()-1)` — the fix is applied to the **last** heap
index, exactly as in the source. -/
def MemCache.Get (c : MemCache) (now : Int) (start end_ : Int) (sourceURL : String) : GetOut :=
  match List.lookup sourceURL c.sourceMap with
  | none => GetOut.miss c
  | some l =>
    let r := c.search start end_ sourceURL
    if ¬ r.2 then GetOut.miss c
    else if end_ - start < 0 then GetOut.panic
    else
      match l.get? r.1.toNat with
      | none => GetOut.panic
      | some targetMeta =>
        let targetStartIndex := start - targetMeta.start
        let targetEndIndex := targetStartIndex + (end_ - start)
        match goSlice targetMeta.buffer targetStartIndex targetEndIndex with
        | none => GetOut.panic
        | some src =>
          let returnBuffer := goMakeCopy (end_ - start).toNat src
          let lru2 := c.lru.map (fun nd =>
            if nd.ptrId = targetMeta.mid then { nd with epoch := now } else nd)
          GetOut.hit returnBuffer { c with lru := heapFix lru2 ((lru2.length : Int) - 1) }

/-- Live entries recorded for one source key (empty when the key is
absent). -/
def entriesOf (c : MemCache) (src : String) : List MetaObject :=
  (List.lookup src c.sourceMap).getD []

/-- Sum of the payload lengths of all live entries across all sources (the
quantity the spec says `currentBytes` always equals). -/
def liveBytes (c : MemCache) : Int :=
  (c.sourceMap.map (fun p => ((p.2.map (fun m => (m.buffer.length : Int))).sum))).sum

/-- A `Put` immediately followed by a `Get` of the same range and source:
the returned bytes, `none` when either operation panics or the `Get`
misses. -/
def putThenGet (c : MemCache) (now1 now2 s e : Int) (buf : List Nat) (src : String) :
    Option (List Nat) :=
  (c.Put now1 s e buf src).bind (fun c1 => (c1.Get now2 s e src).bytes?)

/-- Decidable statement of the min-heap ordering on the `lru` slice: every
parent's `epoch` is `≤` both children's. -/
def isMinHeap (h : List LruObject) : Bool :=
  (List.range h.length).all (fun i =>
    (decide (h.length ≤ 2 * i + 1) ||
      decide ((h.getD i dummyLru).epoch ≤ (h.getD (2 * i + 1) dummyLru).epoch)) &&
    (decide (h.length ≤ 2 * i + 2) ||
      decide ((h.getD i dummyLru).epoch ≤ (h.getD (2 * i + 2) dummyLru).epoch)))

/-! Protocol layer: `server/proxy_request.go`. -/

/-- A failure response written with `http.Error(w, body-without-newline,
status)`; `body` includes the trailing newline `http.Error` appends. -/
structure ErrResp where
  status : Int
  body : String
deriving DecidableEq, Repr

/-- The `InvalidRange` response: status 400, body written by
`http.Error(w, "Bad byte range", http.StatusBadRequest)`. -/
def badByteRange : ErrResp := ⟨400, "Bad byte range\n"⟩

/-- Character-level worker for `strings.Split(s, "-")`: cut the character
list at every dash, `acc` holding the current token reversed. -/
def goSplitDashAux : List Char → List Char → List (List Char)
  | [], acc => [acc.reverse]
  | c :: cs, acc =>
    if c = '-' then acc.reverse :: goSplitDashAux cs []
    else goSplitDashAux cs (c :: acc)

/-- Model of `strings.Split(brange, "-")` (the separator is the single
ASCII character `-`, so a character-level split is exact): the tokens
between dashes, `[""]` for the empty string. -/
def goSplitDash (s : String) : List String :=
  (goSplitDashAux s.toList []).map String.mk

/-- Model of `strings.Trim(s, "\"")`: remove all leading and trailing
double-quote characters. -/
def trimQuote (s : String) : String :=
  String.mk (((s.toList.dropWhile (fun c => c = '"')).reverse.dropWhile
    (fun c => c = '"')).reverse)

/-- ASCII decimal digit test. -/
def isDigit (c : Char) : Bool := decide ('0' ≤ c ∧ c ≤ '9')

/-- Model of `strconv.Atoi` (= `ParseInt(s, 10, 64)` on a 64-bit platform):
an optional sign followed by at least one ASCII digit, rejecting values
outside the 64-bit signed range. -/
def goAtoi (s : String) : Option Int :=
  let cs := s.toList
  let p : Bool × List Char :=
    match cs with
    | '-' :: rest => (true, rest)
    | '+' :: rest => (false, rest)
    | _ => (false, cs)
  if p.2 = [] ∨ ¬ (p.2.all isDigit) then none
  else
    let n : Nat := p.2.foldl (fun a c => a * 10 + (c.toNat - 48)) 0
    let v : Int := if p.1 then -(n : Int) else (n : Int)
    if v < -9223372036854775808 ∨ 9223372036854775807 < v then none else some v

/-- Model of `rangeValidation`.  `strings.Split(brange, "-")` must yield
exactly two tokens; each token is quote-trimmed **after** the split and fed
to `Atoi`; finally `r1 > r2` is rejected.  `Except.error` carries the 400
response the function writes. -/
def rangeValidation (brange : String) : Except ErrResp (Int × Int) :=
  match goSplitDash brange with
  | [t1, t2] =>
    match goAtoi (trimQuote t1) with
    | none => Except.error badByteRange
    | some r1 =>
      match goAtoi (trimQuote t2) with
      | none => Except.error badByteRange
      | some r2 =>
        if r1 > r2 then Except.error badByteRange else Except.ok (r1, r2)
  | _ => Except.error badByteRange

/-- An HTTP header map, as used for the capability-probe response:
canonical keys mapped to their value lists. -/
abbrev Header := List (String × List String)

/-- Model of `strings.ToLower` restricted to ASCII (the only values
exercised are ASCII header tokens such as `bytes`). -/
def goToLower (s : String) : String :=
  String.mk (s.toList.map (fun c =>
    if 'A' ≤ c ∧ c ≤ 'Z' then Char.ofNat (c.toNat + 32) else c))

/-- The `for _, b := range resp.Header["Accept-Ranges"]` loop: the first
value decides — `break` (pass) when it lowercases to `bytes`, otherwise an
immediate error return; an empty value list falls through (pass). -/
def acceptRangesLoop : List String → Bool
  | [] => true
  | b :: _ => goToLower b == ("bytes")

/-- Outcome of `sourceValidation`: success carrying the Content-Type value
propagated to the caller, an error response, or a run-time panic. -/
inductive SVOut where
  | ok : String → SVOut
  | err : ErrResp → SVOut
  | panic : SVOut
deriving DecidableEq, Repr

/-- Model of `sourceValidation`.  `urlOk` abstracts the success of
`url.ParseRequestURI(sourceURL)` and `probe` the result of
`s.httpClient.Head(sourceURL)` (`none` = transport error).  After the
Accept-Ranges check passes, the source runs
`w.Header().Set("Content-Type", resp.Header["Content-Type"][0])` — an
unconditional index into the Content-Type value list, which panics
(index out of range on a nil slice) when the header is absent or empty. -/
def sourceValidation (urlOk : Bool) (probe : Option Header) : SVOut :=
  if ¬ urlOk then SVOut.err ⟨400, "Bad source string\n"⟩
  else
    match probe with
    | none => SVOut.err ⟨400, "Bad source string, does not support range requests\n"⟩
    | some hd =>
      match List.lookup ("Accept-Ranges") hd with
      | none => SVOut.err ⟨400, "Source does not accept range requests\n"⟩
      | some vals =>
        if ¬ acceptRangesLoop vals then
          SVOut.err ⟨400, "Source does not accept range requests\n"⟩
        else
          match (List.lookup ("Content-Type") hd).getD [] with
          | [] => SVOut.panic
          | ct :: _ => SVOut.ok ct

/-- Origin environment for one request: URL-parse success, the
capability-probe response, and the body-fetch result (`none` = transport
error from `httpClient.Do`; `some (status, body)` otherwise). -/
structure Origin where
  urlOk : Bool
  probe : Option Header
  fetch : Option (Int × List Nat)
deriving DecidableEq, Repr

/-- A detached `go s.cache.Put(...)` call spawned by the handler. -/
structure SpawnedPut where
  start : Int
  end_ : Int
  buffer : List Nat
  sourceURL : String
deriving DecidableEq, Repr

/-- Handler outcome: the response status, the bytes written to the caller,
the propagated Content-Type header, the detached cache-population calls
spawned (fire-and-forget, off the response path), and the cache state after
the handler's own (synchronous) cache access; or a run-time panic. -/
inductive ProxyOut where
  | resp : Int → List Nat → Option String → List SpawnedPut → MemCache → ProxyOut
  | panic : ProxyOut
deriving DecidableEq, Repr

/-- Bytes an `ErrResp` body writes. -/
def strBytes (s : String) : List Nat := s.toList.map Char.toNat

/-- Body written by a handler outcome, if it did not panic. -/
def ProxyOut.body? : ProxyOut → Option (List Nat)
  | ProxyOut.resp _ b _ _ _ => some b
  | ProxyOut.panic => none

/-- Status of a handler outcome, if it did not panic. -/
def ProxyOut.status? : ProxyOut → Option Int
  | ProxyOut.resp st _ _ _ _ => some st
  | ProxyOut.panic => none

/-- Detached puts spawned by a handler outcome, if it did not panic. -/
def ProxyOut.spawned? : ProxyOut → Option (List SpawnedPut)
  | ProxyOut.resp _ _ _ sp _ => some sp
  | ProxyOut.panic => none

/-- Cache state after the handler's synchronous part. -/
def ProxyOut.cache? : ProxyOut → Option MemCache
  | ProxyOut.resp _ _ _ _ c => some c
  | ProxyOut.panic => none

/-- The part of `proxyRequest` after range-parameter handling: the `s`
parameter check, `sourceValidation`, and then either the cache-backed
ranged path or the non-ranged pass-through.  On a cache miss the source
runs `resp, err := s.httpClient.Do(req)` followed by
`defer resp.Body.Close()` **before** checking `err`; on a transport error
`resp` is nil and evaluating `resp.Body` for the deferred call panics, so
the `http.Error(..., 500)` lines below it are unreachable — modelled by
`ProxyOut.panic` when `o.fetch = none` (same in the pass-through path).
On a 206 the body is written to the caller and a detached
`go s.cache.Put(ranges[0], ranges[1], respBytes, sourceURL)` is spawned;
a non-206 ranged response is neither cached nor written (the handler falls
off the end). -/
def proxyRest (cache : MemCache) (now : Int) (o : Origin)
    (rangeInfo : Option (String × Int × Int)) (sParam : Option String) : ProxyOut :=
  match sParam with
  | none => ProxyOut.resp 400 (strBytes ("Source string not provided\n")) none [] cache
  | some sRaw =>
    let sourceURL := trimQuote sRaw
    match sourceValidation o.urlOk o.probe with
    | SVOut.err er => ProxyOut.resp er.status (strBytes er.body) none [] cache
    | SVOut.panic => ProxyOut.panic
    | SVOut.ok ct =>
      match rangeInfo with
      | some (_, r1, r2) =>
        match cache.Get now r1 r2 sourceURL with
        | GetOut.panic => ProxyOut.panic
        | GetOut.hit bytes c2 => ProxyOut.resp 200 bytes (some ct) [] c2
        | GetOut.miss c2 =>
          match o.fetch with
          | none => ProxyOut.panic
          | some (status, body) =>
            if status = 206 then
              ProxyOut.resp 200 body (some ct) [⟨r1, r2, body, sourceURL⟩] c2
            else
              ProxyOut.resp 200 [] (some ct) [] c2
      | none =>
        match o.fetch with
        | none => ProxyOut.panic
        | some pr => ProxyOut.resp 200 pr.2 (some ct) [] cache

/-- Model of `proxyRequest` (the handler): if a `range` parameter is
present it is validated first (failure answers 400 `Bad byte range`
immediately); then the rest of the handler runs via `proxyRest`. -/
def proxyRequest (cache : MemCache) (now : Int) (o : Origin)
    (rangeParam sParam : Option String) : ProxyOut :=
  match rangeParam with
  | some rs =>
    match rangeValidation rs with
    | Except.error er => ProxyOut.resp er.status (strBytes er.body) none [] cache
    | Except.ok r12 => proxyRest cache now o (some (rs, r12.1, r12.2)) sParam
  | none => proxyRest cache now o none sParam

/-- Run the detached `Put` calls spawned by a handler (the spec: the lock
serialises them eventually); `none` propagates a panic on the detached
path. -/
def runSpawned (c : MemCache) (now : Int) : List SpawnedPut → Option MemCache
  | [] => some c
  | p :: rest =>
    match c.Put now p.start p.end_ p.buffer p.sourceURL with
    | none => none
    | some c2 => runSpawned c2 now rest

/-- Whether a probe response passes the Accept-Ranges check of
`sourceValidation` (header present and its first value lowercases to
`bytes`, or the value list is empty). -/
def passesAcceptRanges (hd : Header) : Bool :=
  match List.lookup ("Accept-Ranges") hd with
  | none => false
  | some vals => acceptRangesLoop vals

/-- The Content-Type value list of a probe response (empty when the header
is absent), the list indexed by `resp.Header["Content-Type"][0]`. -/
def contentTypeValues (hd : Header) : List String :=
  (List.lookup ("Content-Type") hd).getD []

/-- Successful result of `rangeValidation`, as an `Option`. -/
def rangeOk? : Except ErrResp (Int × Int) → Option (Int × Int)
  | Except.ok p => some p
  | Except.error _ => none

/-- Error response of `rangeValidation`, as an `Option`. -/
def rangeErr? : Except ErrResp (Int × Int) → Option ErrResp
  | Except.ok _ => none
  | Except.error er => some er

/-- Spec-side notion (for claim C9) of a token that is a non-negative
decimal integer: non-empty and all ASCII digits. -/
def isNonNegIntToken (t : String) : Bool :=
  (! t.toList.isEmpty) && t.toList.all isDigit

/-- Numeric value of an all-digit token. -/
def tokenVal (t : String) : Nat :=
  t.toList.foldl (fun a c => a * 10 + (c.toNat - 48)) 0

/-- Claim C9's stated failure condition, transcribed from its words: the
**quote-trimmed** range string does not split into exactly two
dash-separated tokens, either token is not a non-negative integer, or
start > end. -/
def claimInvalidRange (s : String) : Bool :=
  match goSplitDash (trimQuote s) with
  | [t1, t2] =>
    (! isNonNegIntToken t1) || (! isNonNegIntToken t2) ||
      decide (tokenVal t2 < tokenVal t1)
  | _ => true

/-- Probe header of a range-capable origin (used by the end-to-end
scenarios): `Accept-Ranges: bytes` and a content type. -/
def rangeCapableHeader : Header :=
  [(("Accept-Ranges"), [("bytes")]), (("Content-Type"), [("video/mp4")])]

/-- End-to-end scenario (claim C6), request 1: a range-capable origin that
answers the ranged fetch with 206 and a 101-byte body. -/
def exC6origin1 : Origin := ⟨true, some rangeCapableHeader, some (206, List.replicate 101 7)⟩

/-- End-to-end scenario (claim C6), request 2: the same origin but with the
body fetch unavailable — any attempt to fetch would panic, so a successful
response proves the request was served from the cache alone. -/
def exC6origin2 : Origin := ⟨true, some rangeCapableHeader, none⟩

/-- Claim C6: first request for `0-100` against a cold cache. -/
def exC6req1 : ProxyOut :=
  proxyRequest (NewMemCache 1) 1 exC6origin1 (some ("0-100")) (some ("http://x"))

/-- Claim C6: cache state after the first request's detached `Put` has
run. -/
def exC6cache1 : Option MemCache :=
  (exC6req1.cache?).bind (fun c => (exC6req1.spawned?).bind (fun sp => runSpawned c 1 sp))

/-- Claim C6: the second, identical request, served against the populated
cache with the origin fetch unavailable. -/
def exC6req2 : Option ProxyOut :=
  exC6cache1.map (fun c => proxyRequest c 2 exC6origin2 (some ("0-100")) (some ("http://x")))

/-! Helper lemmas. -/

/-- Copying a buffer into a fresh zeroed buffer of the same length yields
the source buffer (the defensive copy in `Put` and `Get`). -/
theorem goMakeCopy_self (src : List Nat) :
    goMakeCopy src.length src = src := by
  simp [goMakeCopy]

/-- Variant of `goMakeCopy_self` with the length given as a separate
equation. -/
theorem goMakeCopy_self_of_length (src : List Nat) (n : Nat) (h : src.length = n) :
    goMakeCopy n src = src := by
  subst h; exact goMakeCopy_self src

/-- Literal evaluation of the Go division `(0+1)/2` used by the concrete
search and heap computations. -/
theorem tdiv_one_two : Int.tdiv 1 2 = 0 := rfl

/-- Literal evaluation of `(0+0)/2`. -/
theorem tdiv_zero_two : Int.tdiv 0 2 = 0 := rfl

/-- Literal evaluation of `(0-1)/2` (Go truncates toward zero). -/
theorem tdiv_negone_two : Int.tdiv (-1) 2 = 0 := rfl

/-- Evaluation of `Put` when the buffer fits and no eviction is
triggered. -/
theorem put_no_evict (c : MemCache) (now s e : Int) (buf : List Nat) (url : String)
    (h1 : ¬ ((buf.length : Int) > c.maxSize))
    (h2 : ¬ ((buf.length : Int) + c.currentSize > c.maxSize)) :
    c.Put now s e buf url = some
      { c with
        sourceMap := smUpdate c.sourceMap url
          (insertByStart (entriesOf c url) ⟨c.nextId, s, e, (buf.length : Int), buf, url⟩)
        lru := c.lru ++ [⟨now, c.nextId, s, e, url⟩]
        currentSize := c.currentSize + (buf.length : Int)
        nextId := c.nextId + 1 } := by
  rw [MemCache.Put, if_neg h1]
  rw [if_neg h2]
  simp [entriesOf, goMakeCopy_self]

/-- Evaluation of `Put` when the buffer fits but eviction is triggered,
given the result of the eviction. -/
theorem put_evict (c : MemCache) (now s e : Int) (buf : List Nat) (url : String)
    (c1 : MemCache)
    (hev : c.evict (buf.length : Int) = some c1)
    (h1 : ¬ ((buf.length : Int) > c.maxSize))
    (h2 : (buf.length : Int) + c.currentSize > c.maxSize) :
    c.Put now s e buf url = some
      { c1 with
        sourceMap := smUpdate c1.sourceMap url
          (insertByStart (entriesOf c1 url) ⟨c1.nextId, s, e, (buf.length : Int), buf, url⟩)
        lru := c1.lru ++ [⟨now, c1.nextId, s, e, url⟩]
        currentSize := c1.currentSize + (buf.length : Int)
        nextId := c1.nextId + 1 } := by
  rw [MemCache.Put, if_neg h1, if_pos h2, hev]
  simp [entriesOf, goMakeCopy_self]

/-- Looking up the key just written by `smUpdate` returns the written
list. -/
theorem lookup_smUpdate (sm : List (String × List MetaObject)) (k : String)
    (v : List MetaObject) : List.lookup k (smUpdate sm k v) = some v := by
  induction sm with
  | nil => simp [smUpdate, List.lookup]
  | cons p rest ih =>
    by_cases h : p.1 = k
    · simp [smUpdate, h, List.lookup]
    · simp only [smUpdate]
      rw [if_neg (by simpa using h)]
      have hke : (k == p.1) = false := by
        simp only [beq_eq_false_iff_ne, ne_eq]
        exact fun hh => h hh.symm
      simp [List.lookup, hke, ih]

/-- Inserting into a list sorted by `start` splits it: the new element
lands after exactly the elements whose `start` is `≤` its own, and the
relative order of the old elements is preserved. -/
theorem insertByStart_split (l : List MetaObject) (m : MetaObject)
    (h : List.Pairwise (fun a b => a.start ≤ b.start) l) :
    ∃ l1 l2, l = l1 ++ l2 ∧ insertByStart l m = l1 ++ m :: l2 ∧
      (∀ x ∈ l1, x.start ≤ m.start) ∧ (∀ x ∈ l2, m.start < x.start) := by
  induction l with
  | nil => exact ⟨[], [], by simp [insertByStart]⟩
  | cons x xs ih =>
    rcases List.pairwise_cons.mp h with ⟨hx, hxs⟩
    by_cases hc : x.start ≤ m.start
    · rcases ih hxs with ⟨l1, l2, heq, hins, h1, h2⟩
      refine ⟨x :: l1, l2, by simp [heq], ?_, ?_, h2⟩
      · simp [insertByStart, hc, hins]
      · intro y hy
        rcases List.mem_cons.mp hy with rfl | hy
        · exact hc
        · exact h1 y hy
    · refine ⟨[], x :: xs, by simp, by simp [insertByStart, hc], by simp, ?_⟩
      intro y hy
      rcases List.mem_cons.mp hy with rfl | hy
      · exact lt_of_not_le hc
      · exact lt_of_lt_of_le (lt_of_not_le hc) (hx y hy)

/-- The element at the insertion index of `l1 ++ m :: l2` is `m`
(`getD` form, as used by the search loop). -/
theorem getD_append_middle (l1 l2 : List MetaObject) (m d : MetaObject) :
    (l1 ++ m :: l2).getD l1.length d = m := by
  rw [List.getD_append_right _ _ _ _ (le_refl _)]
  simp

/-- The element at the insertion index of `l1 ++ m :: l2` is `m`
(`get?` form, as used by `Get`). -/
theorem get?_append_middle (l1 l2 : List MetaObject) (m : MetaObject) :
    (l1 ++ m :: l2).get? l1.length = some m := by
  induction l1 with
  | nil => rfl
  | cons x xs ih => simpa using ih

/-- Core correctness of the `search` loop on a per-source list of the shape
`l1 ++ m :: l2`, where every element of `l1` starts strictly before `s` and
ends at or before `s`, `m` contains `s`, and every element of `l2` starts
strictly after `s`: the loop terminates at the index of `m` with
`found = true`.  (This is the shape produced by inserting a fresh entry for
`[s, e)` into a sorted list of proper, pairwise-disjoint entries that are
all disjoint from `[s, e)`.) -/
theorem searchLoop_finds (l1 l2 : List MetaObject) (m : MetaObject) (s : Int)
    (hm1 : m.start ≤ s) (hm2 : s < m.end_)
    (hl1 : ∀ x ∈ l1, x.start < s ∧ x.end_ ≤ s)
    (hl2 : ∀ x ∈ l2, s < x.start) :
    ∀ (fuel : Nat) (lower upper mid : Int),
      0 ≤ lower → lower ≤ (l1.length : Int) → (l1.length : Int) ≤ upper →
      upper ≤ (l1.length : Int) + (l2.length : Int) →
      (upper - lower).toNat < fuel →
      searchLoop (l1 ++ m :: l2) s fuel lower upper mid = ((l1.length : Int), true) := by
  intro fuel
  induction fuel with
  | zero => intro lower upper mid h1 h2 h3 h4 h5; omega
  | succ fuel ih =>
    intro lower upper mid h1 h2 h3 h4 h5
    have hlu : lower ≤ upper := le_trans h2 h3
    have hdiv : Int.tdiv (lower + upper) 2 = (lower + upper) / 2 :=
      Int.tdiv_eq_ediv (by omega) (by omega)
    rcases lt_trichotomy ((lower + upper) / 2) (l1.length : Int) with hlt | heq | hgt
    · -- probe lands in `l1`: move right
      have htn : (Int.tdiv (lower + upper) 2).toNat < l1.length := by omega
      have hgx : (l1 ++ m :: l2).getD (Int.tdiv (lower + upper) 2).toNat dummyMeta ∈ l1 := by
        rw [List.getD_append _ _ _ _ htn, List.getD_eq_getElem _ _ htn]
        exact List.getElem_mem htn
      rcases hl1 _ hgx with ⟨hxs, hxe⟩
      simp only [searchLoop, if_pos hlu]
      rw [if_neg (by intro hcon; exact absurd hcon.2 (by omega))]
      rw [if_pos hxs]
      exact ih _ _ _ (by omega) (by omega) h3 h4 (by omega)
    · -- probe lands exactly on `m`: found
      have htn : (Int.tdiv (lower + upper) 2).toNat = l1.length := by omega
      simp only [searchLoop, if_pos hlu, htn, getD_append_middle]
      rw [if_pos ⟨hm1, hm2⟩]
      simp [hdiv, heq]
    · -- probe lands in `l2`: move left
      have htn : l1.length < (Int.tdiv (lower + upper) 2).toNat := by omega
      have htn2 : (Int.tdiv (lower + upper) 2).toNat ≤ l1.length + l2.length := by omega
      have hgx : (l1 ++ m :: l2).getD (Int.tdiv (lower + upper) 2).toNat dummyMeta ∈ l2 := by
        rw [List.getD_append_right _ _ _ _ (le_of_lt htn)]
        rw [show (Int.tdiv (lower + upper) 2).toNat - l1.length =
          ((Int.tdiv (lower + upper) 2).toNat - l1.length - 1) + 1 from by omega]
        rw [List.getD_cons_succ]
        rw [List.getD_eq_getElem _ _ (by omega)]
        exact List.getElem_mem (by omega)
      have hxs := hl2 _ hgx
      simp only [searchLoop, if_pos hlu]
      rw [if_neg (by intro hcon; exact absurd hcon.1 (by omega))]
      rw [if_neg (by omega)]
      exact ih _ _ _ h1 h2 (by omega) (by omega) (by omega)

/-- `search` on a per-source list of the split shape reports the index of
`m` with `found = true`. -/
theorem search_found (c : MemCache) (s e : Int) (src : String)
    (l1 l2 : List MetaObject) (m : MetaObject)
    (hl : List.lookup src c.sourceMap = some (l1 ++ m :: l2))
    (hm1 : m.start ≤ s) (hm2 : s < m.end_)
    (hl1 : ∀ x ∈ l1, x.start < s ∧ x.end_ ≤ s)
    (hl2 : ∀ x ∈ l2, s < x.start) :
    c.search s e src = ((l1.length : Int), true) := by
  simp only [MemCache.search, hl]
  rw [searchLoop_finds l1 l2 m s hm1 hm2 hl1 hl2 _ _ _ _ (by omega) (by omega)
    (by simp only [List.length_append, List.length_cons]; omega)
    (by simp only [List.length_append, List.length_cons]; omega)
    (by simp only [List.length_append, List.length_cons]; omega)]
  simp

/-- Evaluation of a hitting `Get` on a per-source list of the split shape:
the result is the requested sub-slice of `m`'s payload, and the cache state
is updated by bumping `m`'s heap node epoch and running `heap.Fix` on the
**last** heap index. -/
theorem get_hit (c : MemCache) (now s e : Int) (src : String)
    (l1 l2 : List MetaObject) (m : MetaObject)
    (hl : List.lookup src c.sourceMap = some (l1 ++ m :: l2))
    (hm1 : m.start ≤ s) (hm2 : s < m.end_)
    (hl1 : ∀ x ∈ l1, x.start < s ∧ x.end_ ≤ s)
    (hl2 : ∀ x ∈ l2, s < x.start)
    (hse : s ≤ e)
    (hslice : e - m.start ≤ (m.buffer.length : Int)) :
    c.Get now s e src = GetOut.hit
      (goMakeCopy (e - s).toNat
        ((m.buffer.take (s - m.start + (e - s)).toNat).drop (s - m.start).toNat))
      { c with lru := (heapFix
          (c.lru.map (fun nd =>
            if nd.ptrId = m.mid then { nd with epoch := now } else nd))
          ((c.lru.length : Int) - 1)) } := by
  simp only [MemCache.Get, hl]
  rw [search_found c s e src l1 l2 m hl hm1 hm2 hl1 hl2]
  have hget : (l1 ++ m :: l2).get? ((l1.length : Int)).toNat = some m := by
    simpa using get?_append_middle l1 l2 m
  rw [if_neg (by simp), if_neg (by omega)]
  rw [hget]
  simp only [goSlice]
  rw [if_pos (show (0:Int) ≤ s - m.start ∧ s - m.start ≤ s - m.start + (e - s) ∧
    s - m.start + (e - s) ≤ (m.buffer.length : Int) from ⟨by omega, by omega, by omega⟩)]
  simp

/-! Claim C5. -/

/-- Claim C5, counterexample: the claim quantifies over every reachable
cache state, but when an overlapping (here: duplicate) entry already
exists, `search` finds the older entry first — after `Put(0,1,[7])`,
`Put(0,1,[9])` and then `Get(0,1)` (no eviction: two one-byte entries in a
megabyte budget, `currentBytes = 2`), the `Get` returns `[7]`, not the
most recently put `[9]`. -/
theorem C5_duplicate_put_shadowed :
    (((NewMemCache 1).Put 1 0 1 [7] (String.mk ['s'])).bind
      (fun c => c.Put 2 0 1 [9] (String.mk ['s']))).bind
      (fun c => (c.Get 3 0 1 (String.mk ['s'])).bytes?) = some [7] ∧
    (((NewMemCache 1).Put 1 0 1 [7] (String.mk ['s'])).bind
      (fun c => c.Put 2 0 1 [9] (String.mk ['s']))).map
        (fun c => c.currentSize) = some 2 ∧
    ([7] : List Nat) ≠ [9] := by
  refine ⟨by decide, by decide, by decide⟩

/-- Claim C5, amended: for every valid `Put(s, e, buf, src)` (`e > s`,
`|buf| = e - s`, non-empty `src`, `|buf| ≤ maxBytes`) performed from a
reachable cache state in which no eviction is triggered
(`|buf| + currentBytes ≤ maxBytes`) **and** the source's live entries are
proper (`start < end`) and disjoint from the written range `[s, e)` (the
source keeps them sorted by `start`), an immediately following
`Get(s, e, src)` returns a byte buffer equal to `buf` exactly. -/
theorem C5_put_then_get_returns_buffer (c : MemCache) (now1 now2 s e : Int)
    (buf : List Nat) (src : String)
    (hse : s < e)
    (hlen : (buf.length : Int) = e - s)
    (hsrc : src ≠ (String.mk []))
    (hmax : (buf.length : Int) ≤ c.maxSize)
    (hfit : (buf.length : Int) + c.currentSize ≤ c.maxSize)
    (hsorted : List.Pairwise (fun a b => a.start ≤ b.start) (entriesOf c src))
    (hdisj : ∀ x ∈ entriesOf c src, x.start < x.end_ ∧ (x.end_ ≤ s ∨ e ≤ x.start)) :
    putThenGet c now1 now2 s e buf src = some buf := by
  rw [putThenGet, put_no_evict c now1 s e buf src (by omega) (by omega)]
  rcases insertByStart_split (entriesOf c src)
      ⟨c.nextId, s, e, (buf.length : Int), buf, src⟩ hsorted with
    ⟨l1, l2, hsplit, hins, hle, hgt⟩
  have hmem1 : ∀ x ∈ l1, x ∈ entriesOf c src := by
    intro x hx; rw [hsplit]; exact List.mem_append_left _ hx
  have hl1 : ∀ x ∈ l1, x.start < s ∧ x.end_ ≤ s := by
    intro x hx
    rcases hdisj x (hmem1 x hx) with ⟨hprop, hd | hd⟩
    · have := hle x hx; constructor <;> simp at this <;> omega
    · have := hle x hx; simp at this; omega
  have hl2 : ∀ x ∈ l2, s < x.start := by
    intro x hx; simpa using hgt x hx
  simp only [Option.some_bind]
  rw [get_hit _ now2 s e src l1 l2 ⟨c.nextId, s, e, (buf.length : Int), buf, src⟩
    (by rw [show ({ c with
        sourceMap := smUpdate c.sourceMap src (insertByStart (entriesOf c src)
          ⟨c.nextId, s, e, (buf.length : Int), buf, src⟩)
        lru := c.lru ++ [⟨now1, c.nextId, s, e, src⟩]
        currentSize := c.currentSize + (buf.length : Int)
        nextId := c.nextId + 1 } : MemCache).sourceMap =
          smUpdate c.sourceMap src (insertByStart (entriesOf c src)
            ⟨c.nextId, s, e, (buf.length : Int), buf, src⟩) from rfl,
      lookup_smUpdate, hins])
    (by simp) (by simpa using hse) hl1 hl2 (by omega) (by simp; omega)]
  simp only [GetOut.bytes?, Option.some.injEq]
  rw [show s - s + (e - s) = e - s from by ring, show s - s = (0 : Int) from by ring]
  rw [show (e - s).toNat = buf.length from by omega]
  simp [goMakeCopy_self]

/-- Claim C5, witness: the amended round-trip theorem applied at a
concrete input (a three-byte put into a fresh cache). -/
theorem C5_put_then_get_returns_buffer_witness :
    (10 : Int) < 13 ∧
    (([5, 6, 7] : List Nat).length : Int) = 13 - 10 ∧
    (String.mk ['s']) ≠ (String.mk []) ∧
    (([5, 6, 7] : List Nat).length : Int) ≤ (NewMemCache 1).maxSize ∧
    (([5, 6, 7] : List Nat).length : Int) + (NewMemCache 1).currentSize ≤
      (NewMemCache 1).maxSize ∧
    List.Pairwise (fun a b => a.start ≤ b.start) (entriesOf (NewMemCache 1) (String.mk ['s'])) ∧
    (∀ x ∈ entriesOf (NewMemCache 1) (String.mk ['s']),
      x.start < x.end_ ∧ (x.end_ ≤ 10 ∨ 13 ≤ x.start)) ∧
    putThenGet (NewMemCache 1) 1 2 10 13 [5, 6, 7] (String.mk ['s']) = some [5, 6, 7] :=
  ⟨by decide, by decide, by decide, by decide, by decide,
    List.Pairwise.nil,
    by intro x hx; simp [entriesOf, NewMemCache, List.lookup] at hx,
    C5_put_then_get_returns_buffer (NewMemCache 1) 1 2 10 13 [5, 6, 7] (String.mk ['s'])
      (by decide) (by decide) (by decide) (by decide) (by decide)
      List.Pairwise.nil
      (by intro x hx; simp [entriesOf, NewMemCache, List.lookup] at hx)⟩

/-! Claim C1. -/

/-- Claim C1 (code bug): `evict` never decrements `currentSize`, so after a
`Put` that evicts, `currentBytes` exceeds both the sum of live payload
lengths and `maxBytes`.  From a fresh 1 MB cache, putting 600000 bytes and
then another 600000 bytes (which evicts the first entry) leaves
`currentSize = 1200000 > maxSize = 1000000`, while the live payloads sum to
`600000`. -/
theorem C1_eviction_leaves_currentSize :
    (((NewMemCache 1).Put 1 0 600000 (List.replicate 600000 0) (String.mk ['s'])).bind
      (fun c => c.Put 2 600000 1200000 (List.replicate 600000 0) (String.mk ['s']))).map
      (fun c => (c.currentSize, c.maxSize, liveBytes c)) =
      some (1200000, 1000000, 600000) ∧
    ¬ ((1200000 : Int) ≤ 1000000) ∧ ((600000 : Int) ≠ 1200000) := by
  refine ⟨?_, by decide, by decide⟩
  have main : ∀ buf : List Nat, buf.length = 600000 →
      (((NewMemCache 1).Put 1 0 600000 buf (String.mk ['s'])).bind
        (fun c => c.Put 2 600000 1200000 buf (String.mk ['s']))).map
        (fun c => (c.currentSize, c.maxSize, liveBytes c)) =
        some (1200000, 1000000, 600000) := by
    intro buf hb
    have hbi : ((buf.length : Nat) : Int) = 600000 := by rw [hb]; rfl
    have e1 : (NewMemCache 1).Put 1 0 600000 buf (String.mk ['s']) = some
        { maxSize := 1000000, currentSize := 600000
          lru := [⟨1, 0, 0, 600000, String.mk ['s']⟩]
          sourceMap := [((String.mk ['s']),
            [⟨0, 0, 600000, 600000, buf, String.mk ['s']⟩])]
          nextId := 1 } := by
      rw [put_no_evict _ 1 0 600000 _ _
        (by rw [hbi]; show ¬ (600000 : Int) > 1000000; decide)
        (by rw [hbi]; show ¬ ((600000 : Int) + 0 > 1000000); decide)]
      simp [NewMemCache, entriesOf, smUpdate, insertByStart, List.lookup, hbi]
    have hev : MemCache.evict
        { maxSize := 1000000, currentSize := 600000
          lru := [⟨1, 0, 0, 600000, String.mk ['s']⟩]
          sourceMap := [((String.mk ['s']),
            [⟨0, 0, 600000, 600000, buf, String.mk ['s']⟩])]
          nextId := 1 } ((buf.length : Nat) : Int) = some
        { maxSize := 1000000, currentSize := 600000
          lru := []
          sourceMap := [((String.mk ['s']), ([] : List MetaObject))]
          nextId := 1 } := by
      rw [hbi]
      simp [MemCache.evict, evictLoop, searchLoop, smUpdate, List.lookup]
    have e2 : (MemCache.Put
        { maxSize := 1000000, currentSize := 600000
          lru := [⟨1, 0, 0, 600000, String.mk ['s']⟩]
          sourceMap := [((String.mk ['s']),
            [⟨0, 0, 600000, 600000, buf, String.mk ['s']⟩])]
          nextId := 1 } 2 600000 1200000 buf (String.mk ['s'])) = some
        { maxSize := 1000000, currentSize := 1200000
          lru := [⟨2, 1, 600000, 1200000, String.mk ['s']⟩]
          sourceMap := [((String.mk ['s']),
            [⟨1, 600000, 1200000, 600000, buf, String.mk ['s']⟩])]
          nextId := 2 } := by
      rw [put_evict _ 2 600000 1200000 buf (String.mk ['s']) _ hev
        (by rw [hbi]; show ¬ (600000 : Int) > 1000000; decide)
        (by rw [hbi]; show (600000 : Int) + 600000 > 1000000; decide)]
      simp [entriesOf, smUpdate, insertByStart, List.lookup, hbi]
    rw [e1, Option.some_bind, e2, Option.map_some']
    simp [liveBytes, hbi]
  exact main _ (List.length_replicate _ _)

/-! Claim C2. -/

/-- Claim C2 (code bug): the containment check in `search` is dead code —
`if found && end <= e.end { found = true }` never clears `found`.  With a
single entry `[0, 10)`, `search(0, 20)` reports found even though
`20 ≤ 10` fails, and `Get(0, 20)` then panics on the out-of-range slice
`buffer[0:20]` instead of failing with `CacheMiss`. -/
theorem C2_containment_check_ineffective :
    ((NewMemCache 1).Put 1 0 10 (List.replicate 10 0) (String.mk ['s'])).map
      (fun c => (c.search 0 20 (String.mk ['s']), (c.Get 2 0 20 (String.mk ['s'])).isPanic)) =
      some ((0, true), true) := by decide

/-! Claim C3. -/

/-- Claim C3 (code bug): `evict` calls the raw `lruHeap.Pop` method, which
removes the **last** slice element, not `container/heap.Pop` (the
minimum).  Scenario: entries A `[0, 400000)` (put at time 1) and B
`[400000, 800000)` (put at time 2, never re-accessed); A is re-accessed at
time 3; a third put triggers eviction.  The heap then holds epochs
`[2, 3]` (minimum 2 = B at the root), yet eviction removes A — the most
recently accessed entry — and keeps B, the opposite of both the popMin
description and the A/B consequence in the claim. -/
theorem C3_evict_pops_most_recent_not_lru :
    (((((NewMemCache 1).Put 1 0 400000 (List.replicate 400000 0) (String.mk ['s'])).bind
      (fun c => c.Put 2 400000 800000 (List.replicate 400000 0) (String.mk ['s']))).bind
      (fun c => (c.Get 3 0 400000 (String.mk ['s'])).state?)).map
      (fun c => c.lru.map (fun n => (n.epoch, n.ptrStart)))) =
      some [(2, 400000), (3, 0)] ∧
    (((((NewMemCache 1).Put 1 0 400000 (List.replicate 400000 0) (String.mk ['s'])).bind
      (fun c => c.Put 2 400000 800000 (List.replicate 400000 0) (String.mk ['s']))).bind
      (fun c => (c.Get 3 0 400000 (String.mk ['s'])).state?)).bind
      (fun c => c.Put 4 800000 1200000 (List.replicate 400000 0) (String.mk ['s']))).map
      (fun c => (c.lru.map (fun n => n.epoch),
        (entriesOf c (String.mk ['s'])).map (fun m => (m.start, m.end_)))) =
      some ([2, 4], [(400000, 800000), (800000, 1200000)]) ∧
    (2 : Int) < 3 := by
  have main : ∀ buf : List Nat, buf.length = 400000 →
      ((((NewMemCache 1).Put 1 0 400000 buf (String.mk ['s'])).bind
        (fun c => c.Put 2 400000 800000 buf (String.mk ['s']))).bind
        (fun c => (c.Get 3 0 400000 (String.mk ['s'])).state?)).map
        (fun c => c.lru.map (fun n => (n.epoch, n.ptrStart))) =
        some [(2, 400000), (3, 0)] ∧
      (((((NewMemCache 1).Put 1 0 400000 buf (String.mk ['s'])).bind
        (fun c => c.Put 2 400000 800000 buf (String.mk ['s']))).bind
        (fun c => (c.Get 3 0 400000 (String.mk ['s'])).state?)).bind
        (fun c => c.Put 4 800000 1200000 buf (String.mk ['s']))).map
        (fun c => (c.lru.map (fun n => n.epoch),
          (entriesOf c (String.mk ['s'])).map (fun m => (m.start, m.end_)))) =
        some ([2, 4], [(400000, 800000), (800000, 1200000)]) := by
    intro buf hb
    have hbi : ((buf.length : Nat) : Int) = 400000 := by rw [hb]; rfl
    have e1 : (NewMemCache 1).Put 1 0 400000 buf (String.mk ['s']) = some
        { maxSize := 1000000, currentSize := 400000
          lru := [⟨1, 0, 0, 400000, String.mk ['s']⟩]
          sourceMap := [((String.mk ['s']),
            [⟨0, 0, 400000, 400000, buf, String.mk ['s']⟩])]
          nextId := 1 } := by
      rw [put_no_evict _ 1 0 400000 _ _
        (by rw [hbi]; show ¬ (400000 : Int) > 1000000; decide)
        (by rw [hbi]; show ¬ ((400000 : Int) + 0 > 1000000); decide)]
      simp [NewMemCache, entriesOf, smUpdate, insertByStart, List.lookup, hbi]
    have e2 : (MemCache.Put
        { maxSize := 1000000, currentSize := 400000
          lru := [⟨1, 0, 0, 400000, String.mk ['s']⟩]
          sourceMap := [((String.mk ['s']),
            [⟨0, 0, 400000, 400000, buf, String.mk ['s']⟩])]
          nextId := 1 } 2 400000 800000 buf (String.mk ['s'])) = some
        { maxSize := 1000000, currentSize := 800000
          lru := [⟨1, 0, 0, 400000, String.mk ['s']⟩, ⟨2, 1, 400000, 800000, String.mk ['s']⟩]
          sourceMap := [((String.mk ['s']),
            [⟨0, 0, 400000, 400000, buf, String.mk ['s']⟩,
             ⟨1, 400000, 800000, 400000, buf, String.mk ['s']⟩])]
          nextId := 2 } := by
      rw [put_no_evict _ 2 400000 800000 _ _
        (by rw [hbi]; show ¬ (400000 : Int) > 1000000; decide)
        (by rw [hbi]; show ¬ ((400000 : Int) + 400000 > 1000000); decide)]
      simp [entriesOf, smUpdate, insertByStart, List.lookup, hbi]
    have e3 : ((MemCache.Get
        { maxSize := 1000000, currentSize := 800000
          lru := [⟨1, 0, 0, 400000, String.mk ['s']⟩, ⟨2, 1, 400000, 800000, String.mk ['s']⟩]
          sourceMap := [((String.mk ['s']),
            [⟨0, 0, 400000, 400000, buf, String.mk ['s']⟩,
             ⟨1, 400000, 800000, 400000, buf, String.mk ['s']⟩])]
          nextId := 2 } 3 0 400000 (String.mk ['s']))).state? = some
        { maxSize := 1000000, currentSize := 800000
          lru := [⟨2, 1, 400000, 800000, String.mk ['s']⟩, ⟨3, 0, 0, 400000, String.mk ['s']⟩]
          sourceMap := [((String.mk ['s']),
            [⟨0, 0, 400000, 400000, buf, String.mk ['s']⟩,
             ⟨1, 400000, 800000, 400000, buf, String.mk ['s']⟩])]
          nextId := 2 } := by
      simp [MemCache.Get, MemCache.search, searchLoop, List.lookup, goSlice, hbi,
        heapFix, heapDown, heapUp, lruLess, lruSwap, GetOut.state?,
        tdiv_one_two, tdiv_zero_two, tdiv_negone_two]
    have e4 : (MemCache.Put
        { maxSize := 1000000, currentSize := 800000
          lru := [⟨2, 1, 400000, 800000, String.mk ['s']⟩, ⟨3, 0, 0, 400000, String.mk ['s']⟩]
          sourceMap := [((String.mk ['s']),
            [⟨0, 0, 400000, 400000, buf, String.mk ['s']⟩,
             ⟨1, 400000, 800000, 400000, buf, String.mk ['s']⟩])]
          nextId := 2 } 4 800000 1200000 buf (String.mk ['s'])) = some
        { maxSize := 1000000, currentSize := 1200000
          lru := [⟨2, 1, 400000, 800000, String.mk ['s']⟩, ⟨4, 2, 800000, 1200000, String.mk ['s']⟩]
          sourceMap := [((String.mk ['s']),
            [⟨1, 400000, 800000, 400000, buf, String.mk ['s']⟩,
             ⟨2, 800000, 1200000, 400000, buf, String.mk ['s']⟩])]
          nextId := 3 } := by
      have hev : MemCache.evict
          { maxSize := 1000000, currentSize := 800000
            lru := [⟨2, 1, 400000, 800000, String.mk ['s']⟩, ⟨3, 0, 0, 400000, String.mk ['s']⟩]
            sourceMap := [((String.mk ['s']),
              [⟨0, 0, 400000, 400000, buf, String.mk ['s']⟩,
               ⟨1, 400000, 800000, 400000, buf, String.mk ['s']⟩])]
            nextId := 2 } ((buf.length : Nat) : Int) = some
          { maxSize := 1000000, currentSize := 800000
            lru := [⟨2, 1, 400000, 800000, String.mk ['s']⟩]
            sourceMap := [((String.mk ['s']),
              [⟨1, 400000, 800000, 400000, buf, String.mk ['s']⟩])]
            nextId := 2 } := by
        rw [hbi]
        simp [MemCache.evict, evictLoop, searchLoop, smUpdate, List.lookup,
          tdiv_one_two, tdiv_zero_two, tdiv_negone_two]
      rw [put_evict _ 4 800000 1200000 buf (String.mk ['s']) _ hev
        (by rw [hbi]; show ¬ (400000 : Int) > 1000000; decide)
        (by rw [hbi]; show (400000 : Int) + 800000 > 1000000; decide)]
      simp [entriesOf, smUpdate, insertByStart, List.lookup, hbi]
    constructor
    · rw [e1, Option.some_bind, e2, Option.some_bind, e3, Option.map_some']
      simp
    · rw [e1, Option.some_bind, e2, Option.some_bind, e3, Option.some_bind, e4,
        Option.map_some']
      simp [entriesOf, List.lookup]
  rcases main (List.replicate 400000 0) (List.length_replicate _ _) with ⟨m1, m2⟩
  exact ⟨m1, m2, by decide⟩

/-! Claim C4. -/

/-- Claim C4 (code bug): `Get` bumps the accessed entry's `lastAccess` but
then runs `heap.Fix(c.lru, c.lru.Len()-1)` — the **last** index, not the
accessed entry's node.  With three entries of epochs 1, 2, 3, a `Get` of
the first at time 10 leaves the heap slice `[3, 2, 10]`: the heap ordering
is broken (root 3 exceeds its child 2) and the root is not the entry with
the least-recent access time. -/
theorem C4_heap_fix_wrong_index :
    (((((NewMemCache 1).Put 1 0 1 [0] (String.mk ['s'])).bind
        (fun c => c.Put 2 1 2 [0] (String.mk ['s']))).bind
        (fun c => c.Put 3 2 3 [0] (String.mk ['s']))).bind
      (fun c => (c.Get 10 0 1 (String.mk ['s'])).state?)).map
        (fun c => (c.lru.map (fun n => n.epoch), isMinHeap c.lru)) =
      some ([3, 2, 10], false) := by decide

/-! Claim C6. -/

/-- Claim C6 (code bug): the wire range is inclusive-inclusive but is
**not** converted to the cache's half-open convention: the handler passes
the parsed `(0, 100)` straight to `Get`/`Put`, so the first `0-100`
request correctly returns the 101 fetched bytes and caches them under
`[0, 100)`, but the second identical request — served from cache without
any origin fetch (the origin is unavailable in request 2) — copies only
`end - start = 100` bytes, dropping the final byte. -/
theorem C6_second_request_loses_final_byte :
    exC6req1.body? = some (List.replicate 101 7) ∧
    exC6req1.spawned? = some [⟨0, 100, List.replicate 101 7, ("http://x")⟩] ∧
    exC6req2.map (fun r => r.body?) = some (some (List.replicate 100 7)) ∧
    exC6req2.map (fun r => r.spawned?) = some (some []) ∧
    (List.replicate 100 7 : List Nat) ≠ List.replicate 101 7 := by
  refine ⟨by decide, by decide, by decide, by decide, by decide⟩

/-! Claim C7. -/

/-- Claim C7: for every ranged request that misses the cache and receives
a 206 origin response, the handler writes the full fetched body to the
caller (status 200, content type propagated) and spawns exactly one
detached `Put` with the same range, bytes, and source. -/
theorem C7_miss_writes_body_and_spawns_put
    (c : MemCache) (now : Int) (o : Origin) (rs sRaw : String) (r1 r2 : Int)
    (body : List Nat) (ct : String)
    (hrange : rangeValidation rs = Except.ok (r1, r2))
    (hsv : sourceValidation o.urlOk o.probe = SVOut.ok ct)
    (hmiss : c.Get now r1 r2 (trimQuote sRaw) = GetOut.miss c)
    (hfetch : o.fetch = some (206, body)) :
    proxyRequest c now o (some rs) (some sRaw) =
      ProxyOut.resp 200 body (some ct) [⟨r1, r2, body, trimQuote sRaw⟩] c := by
  simp [proxyRequest, hrange, proxyRest, hsv, hmiss, hfetch]

/-- Claim C7, witness: the miss-path theorem applied at a concrete input
(a fresh cache, range `0-9`, a range-capable origin answering 206 with ten
bytes). -/
theorem C7_miss_writes_body_and_spawns_put_witness :
    rangeValidation ("0-9") = Except.ok (0, 9) ∧
    sourceValidation true (some rangeCapableHeader) = SVOut.ok ("video/mp4") ∧
    (NewMemCache 1).Get 0 0 9 (trimQuote ("http://x")) = GetOut.miss (NewMemCache 1) ∧
    proxyRequest (NewMemCache 1) 0 ⟨true, some rangeCapableHeader, some (206, List.replicate 10 3)⟩
      (some ("0-9")) (some ("http://x")) =
      ProxyOut.resp 200 (List.replicate 10 3) (some ("video/mp4"))
        [⟨0, 9, List.replicate 10 3, trimQuote ("http://x")⟩] (NewMemCache 1) :=
  ⟨rfl, by decide, by decide,
    C7_miss_writes_body_and_spawns_put (NewMemCache 1) 0
      ⟨true, some rangeCapableHeader, some (206, List.replicate 10 3)⟩
      ("0-9") ("http://x") 0 9 (List.replicate 10 3) ("video/mp4")
      rfl (by decide) (by decide) rfl⟩

/-! Claim C8. -/

/-- Claim C8 (code bug): on an origin transport error the handler does not
surface a 500 — `defer resp.Body.Close()` is registered **before** the
`err != nil` check, and with `resp = nil` evaluating `resp.Body` panics,
aborting the request before the `http.Error(..., 500)` line can run; this
happens on both the ranged-miss fetch and the non-ranged pass-through. -/
theorem C8_transport_error_panics :
    proxyRequest (NewMemCache 1) 0 ⟨true, some rangeCapableHeader, none⟩
      (some ("0-100")) (some ("http://x")) = ProxyOut.panic ∧
    proxyRequest (NewMemCache 1) 0 ⟨true, some rangeCapableHeader, none⟩
      none (some ("http://x")) = ProxyOut.panic := by
  refine ⟨by decide, by decide⟩

/-! Claim C9. -/

/-- Claim C9, counterexample: the claim trims quotes from the whole range
string before splitting, but the source splits **first** and quote-trims
each token.  On `0"-100` the claim's condition says InvalidRange (token
`0"` is not a non-negative integer), yet `rangeValidation` accepts it as
`(0, 100)`. -/
theorem C9_trim_order_counterexample :
    claimInvalidRange ("0\"-100") = true ∧
    rangeOk? (rangeValidation ("0\"-100")) = some (0, 100) :=
  ⟨by decide, by decide⟩

/-- Claim C9, amended: `rangeValidation` succeeds exactly when the
(untrimmed) range string splits into exactly two dash-separated tokens and
each token, after per-token quote-trimming, parses under Go `Atoi` with
`start ≤ end` (tokens cannot contain a dash, so accepted values are
non-negative); and each of the inputs `100-0`, `100-`, `-100`, `-`, `""`
yields the 400 `Bad byte range` response. -/
theorem C9_amended_characterization :
    (∀ s r1 r2, rangeOk? (rangeValidation s) = some (r1, r2) ↔
      (∃ t1 t2, goSplitDash s = [t1, t2] ∧ goAtoi (trimQuote t1) = some r1 ∧
        goAtoi (trimQuote t2) = some r2 ∧ r1 ≤ r2)) ∧
    rangeErr? (rangeValidation ("100-0")) = some badByteRange ∧
    rangeErr? (rangeValidation ("100-")) = some badByteRange ∧
    rangeErr? (rangeValidation ("-100")) = some badByteRange ∧
    rangeErr? (rangeValidation ("-")) = some badByteRange ∧
    rangeErr? (rangeValidation ("")) = some badByteRange := by
  refine ⟨?_, by decide, by decide, by decide, by decide, by decide⟩
  intro s r1 r2
  constructor
  · intro h
    rcases hs : goSplitDash s with _ | ⟨t1, _ | ⟨t2, _ | ⟨t3, ts3⟩⟩⟩
    · simp [rangeValidation, hs, rangeOk?] at h
    · simp [rangeValidation, hs, rangeOk?] at h
    · simp only [rangeValidation, hs] at h
      rcases h1 : goAtoi (trimQuote t1) with _ | v1
      · simp [h1, rangeOk?] at h
      · rcases h2 : goAtoi (trimQuote t2) with _ | v2
        · simp [h1, h2, rangeOk?] at h
        · by_cases hgt : v1 > v2
          · simp [h1, h2, if_pos hgt, rangeOk?] at h
          · simp only [h1, h2, if_neg hgt, rangeOk?, Option.some.injEq,
              Prod.mk.injEq] at h
            refine ⟨t1, t2, rfl, ?_, ?_, by omega⟩
            · rw [h1, h.1]
            · rw [h2, h.2]
    · simp [rangeValidation, hs, rangeOk?] at h
  · rintro ⟨t1, t2, hs, h1, h2, hle⟩
    simp only [rangeValidation, hs, h1, h2]
    rw [if_neg (by omega)]
    simp [rangeOk?]

/-! Claim C10. -/

/-- Claim C10: after the Accept-Ranges check passes, `sourceValidation`
unconditionally indexes `resp.Header["Content-Type"][0]`; for every
accepted probe response the execution panics (index out of range) exactly
when the Content-Type value list is empty, and a concrete probe response
with `Accept-Ranges: bytes` and no Content-Type header panics instead of
producing an error response. -/
theorem C10_missing_content_type_panics :
    (∀ hd : Header, passesAcceptRanges hd = true →
      (sourceValidation true (some hd) = SVOut.panic ↔ contentTypeValues hd = [])) ∧
    sourceValidation true (some [(("Accept-Ranges"), [("bytes")])]) = SVOut.panic := by
  constructor
  · intro hd hp
    rcases hAR : List.lookup ("Accept-Ranges") hd with _ | vals
    · simp [passesAcceptRanges, hAR] at hp
    · simp only [passesAcceptRanges, hAR] at hp
      simp only [sourceValidation, hAR]
      rw [if_neg (by simp), if_neg (by simp [hp])]
      rcases hCT : (List.lookup ("Content-Type") hd).getD [] with _ | ⟨a, t⟩
      · simp [contentTypeValues, hCT]
      · simp [contentTypeValues, hCT]
  · decide

/-- Claim C10, witness: the characterization applied to the concrete
accepted probe response lacking a Content-Type header. -/
theorem C10_missing_content_type_panics_witness :
    passesAcceptRanges [(("Accept-Ranges"), [("bytes")])] = true ∧
    (sourceValidation true (some [(("Accept-Ranges"), [("bytes")])]) = SVOut.panic ↔
      contentTypeValues [(("Accept-Ranges"), [("bytes")])] = []) :=
  ⟨by decide, C10_missing_content_type_panics.1 _ (by decide)⟩

end Vimeoserver
